import Mathlib

/-!
Shallow embedding of `src/scraper.py` (event-scraper): the EventRecord data
model, the two Source variants (`GenericHTMLSource`, `SchemaOrgSource`), the
`EventFilter` engine, the `CalendarGenerator` encoder and the grouping
functions of `EventFilter` / `EventAggregator`.

Modelling conventions:
- Python `datetime` values become a `DateTime` structure of numeric fields;
  Python's component-wise datetime comparison becomes lexicographic
  comparison of the field list.
- The external fuzzy date parser (`dateutil.parser.parse`, which raises on
  non-date text) is a parameter `pd : String -> Option DateTime`; `none`
  models the raised exception that the code catches.
- Python dicts holding event data become the `EventRecord` structure. Both
  sources construct every record with the keys `title`, `start`, `location`,
  `description`, `url` always present (`end` only in the schema.org source),
  so `event.get('title', d)` on a pipeline record is its `title` value, and
  `event.get('end')` is the `Option` field.
- `try ... except` around fallible steps becomes `Except` / `Option`
  consumption: an exception inside a region is an `.error` value, and the
  handler's behaviour is the `.error` branch.
- Python insertion-ordered dicts used by the grouping code become
  association lists `List (String × List EventRecord)` built by `insertGroup`.
-/

namespace EventScraper

/-!
Python string primitives, implemented by structural recursion on the
character list of a `String` so that every definition reduces inside the
kernel (the core library's iterator-based `String` functions do not).
-/

/-- ASCII lowering, the fragment of Python `str.lower` the configuration
and event texts exercise. -/
def lowerChar (c : Char) : Char :=
  if 'A' ≤ c ∧ c ≤ 'Z' then Char.ofNat (c.toNat + 32) else c

/-- Python `str.lower`. -/
def pyLower (s : String) : String :=
  ⟨s.data.map lowerChar⟩

/-- The whitespace characters Python `str.strip` removes. -/
def pyIsSpace (c : Char) : Bool :=
  c == ' ' || c == '\t' || c == '\n' || c == '\r'

/-- Python `str.strip()`: drop whitespace from both ends. -/
def pyStrip (s : String) : String :=
  ⟨((s.data.dropWhile pyIsSpace).reverse.dropWhile pyIsSpace).reverse⟩

/-- Is the first list a prefix of the second? -/
def leadingSeg : List Char → List Char → Bool
  | [], _ => true
  | _ :: _, [] => false
  | a :: as, b :: bs => a == b && leadingSeg as bs

/-- Does `needle` occur as a contiguous sublist of `hay`? The empty
needle occurs everywhere, as in Python. -/
def occursIn (needle : List Char) : List Char → Bool
  | [] => leadingSeg needle []
  | c :: rest => leadingSeg needle (c :: rest) || occursIn needle rest

/-- Python `sep in s` (substring containment). -/
def pyContains (needle hay : String) : Bool :=
  occursIn needle.data hay.data

/-- Split a character list on a single separator character; Python
`str.split(sep)` semantics (`""` splits to `[""]`, separators at the
ends produce empty pieces). -/
def splitOnChar (sep : Char) : List Char → List (List Char)
  | [] => [[]]
  | c :: rest =>
    let r := splitOnChar sep rest
    if c == sep then [] :: r
    else
      match r with
      | [] => [[c]]
      | h :: t => (c :: h) :: t

/-- Python `s.split(sep)` for a one-character separator. -/
def pySplitChar (sep : Char) (s : String) : List String :=
  (splitOnChar sep s.data).map fun l => (⟨l⟩ : String)

/-- Split on a multi-character separator, with explicit fuel (one unit
per input character) to keep the recursion structural. -/
def splitOnSeq (sep : List Char) : Nat → List Char → List (List Char)
  | 0, l => [l]
  | _ + 1, [] => [[]]
  | fuel + 1, c :: rest =>
    if leadingSeg sep (c :: rest) then
      [] :: splitOnSeq sep fuel (rest.drop (sep.length - 1))
    else
      match splitOnSeq sep fuel rest with
      | [] => [[c]]
      | h :: t => (c :: h) :: t

/-- Python `s.split(sep)` for a non-empty separator string. -/
def pySplitSeq (sep s : String) : List String :=
  (splitOnSeq sep.data s.data.length s.data).map fun l => (⟨l⟩ : String)

/-- Python `s.startswith(p)`. -/
def pyStartsWith (p s : String) : Bool :=
  leadingSeg p.data s.data

/-- A parsed timestamp: the fields of a Python `datetime` relevant here. -/
structure DateTime where
  year : Nat
  month : Nat
  day : Nat
  hour : Nat
  minute : Nat
  second : Nat
deriving DecidableEq, Repr

/-- Lexicographic strict order on `Nat` lists, as a Bool. -/
def lexLt : List Nat → List Nat → Bool
  | [], [] => false
  | [], _ :: _ => true
  | _ :: _, [] => false
  | a :: as, b :: bs => a < b || (a == b && lexLt as bs)

/-- Field list of a `DateTime`, most significant first. -/
def DateTime.toList (d : DateTime) : List Nat :=
  [d.year, d.month, d.day, d.hour, d.minute, d.second]

/-- `a < b` on Python datetimes: lexicographic on components. -/
def DateTime.blt (a b : DateTime) : Bool :=
  lexLt a.toList b.toList

/-- The normalized event record produced by every Source (a Python dict
with keys `title`, `start`, `end`, `location`, `description`, `url`). -/
structure EventRecord where
  title : String
  start : Option DateTime
  endTime : Option DateTime
  location : String
  description : String
  url : String
deriving DecidableEq, Repr

/-- One `include`/`exclude` filter section of the configuration
(`locations` or `keywords`); `enabled` is the truthiness of the
`enabled` entry. -/
structure TermSection where
  enabled : Bool
  «include» : List String
  exclude : List String
deriving DecidableEq, Repr

/-- The `date_range` filter section; `start_date`/`end_date` are the raw
configuration strings (`none` = key absent). -/
structure DateRangeSection where
  enabled : Bool
  start_date : Option String
  end_date : Option String
deriving DecidableEq, Repr

/-- The `filters` configuration dict: each section may be absent
(`config.get(section, {})` then yields the empty dict, i.e. a disabled
section with empty term lists). -/
structure FilterConfig where
  locations : Option TermSection
  keywords : Option TermSection
  date_range : Option DateRangeSection
deriving DecidableEq, Repr

/-- `config.get('locations', {})` / `config.get('keywords', {})`:
an absent section reads as the empty dict (disabled, empty lists). -/
def sectionD (o : Option TermSection) : TermSection :=
  o.getD { enabled := false, «include» := [], exclude := [] }

/-- `config.get('date_range', {})`. -/
def drSectionD (o : Option DateRangeSection) : DateRangeSection :=
  o.getD { enabled := false, start_date := none, end_date := none }

namespace EventFilter

/-- `EventFilter._filter_by_location`: for each event take
`event.get('location','').lower()`, drop it if any exclude term (lowered)
occurs in it, then, if the include list is non-empty, keep it only when
some include term occurs; the loop-with-`continue` is a `List.filter`. -/
def filter_by_location (loc_config : TermSection) (events : List EventRecord) :
    List EventRecord :=
  events.filter fun event =>
    let location := pyLower event.location
    if loc_config.exclude.any (fun ex => pyContains (pyLower ex) location) then
      false
    else if loc_config.«include» ≠ [] then
      loc_config.«include».any (fun inc => pyContains (pyLower inc) location)
    else
      true

/-- `EventFilter._filter_by_keywords`: same two-phase rule over
`f"{title} {description}".lower()`. -/
def filter_by_keywords (kw_config : TermSection) (events : List EventRecord) :
    List EventRecord :=
  events.filter fun event =>
    let text := pyLower (event.title ++ " " ++ event.description)
    if kw_config.exclude.any (fun ex => pyContains (pyLower ex) text) then
      false
    else if kw_config.«include» ≠ [] then
      kw_config.«include».any (fun inc => pyContains (pyLower inc) text)
    else
      true

/-- `if dr_config.get('start_date'): try: parser.parse(...) except: pass` —
an absent or empty config string, or one the parser raises on, leaves the
bound `None`. -/
def dateBound (pd : String → Option DateTime) : Option String → Option DateTime
  | none => none
  | some s => if s = "" then none else pd s

/-- `EventFilter._filter_by_date_range`: parse both bounds once, then drop
events lacking `start`, those strictly before the lower bound and those
strictly after the upper bound. -/
def filter_by_date_range (pd : String → Option DateTime)
    (dr_config : DateRangeSection) (events : List EventRecord) :
    List EventRecord :=
  let start_date := dateBound pd dr_config.start_date
  let end_date := dateBound pd dr_config.end_date
  events.filter fun event =>
    match event.start with
    | none => false
    | some d =>
      !(match start_date with
        | some lo => d.blt lo
        | none => false) &&
      !(match end_date with
        | some hi => hi.blt d
        | none => false)

/-- `EventFilter.filter_events`: apply each stage in the fixed order
locations, keywords, date_range, each only when its section's `enabled`
flag is truthy. -/
def filter_events (pd : String → Option DateTime) (config : FilterConfig)
    (events : List EventRecord) : List EventRecord :=
  let filtered := events
  let filtered :=
    if (sectionD config.locations).enabled then
      filter_by_location (sectionD config.locations) filtered
    else filtered
  let filtered :=
    if (sectionD config.keywords).enabled then
      filter_by_keywords (sectionD config.keywords) filtered
    else filtered
  let filtered :=
    if (drSectionD config.date_range).enabled then
      filter_by_date_range pd (drSectionD config.date_range) filtered
    else filtered
  filtered

/-- The per-record keep condition of `_filter_by_location`, named so that
theorems can speak about one record's fate. -/
def locationKeep (loc_config : TermSection) (event : EventRecord) : Bool :=
  let location := pyLower event.location
  if loc_config.exclude.any (fun ex => pyContains (pyLower ex) location) then
    false
  else if loc_config.«include» ≠ [] then
    loc_config.«include».any (fun inc => pyContains (pyLower inc) location)
  else
    true

/-- The per-record keep condition of `_filter_by_keywords`. -/
def keywordKeep (kw_config : TermSection) (event : EventRecord) : Bool :=
  let text := pyLower (event.title ++ " " ++ event.description)
  if kw_config.exclude.any (fun ex => pyContains (pyLower ex) text) then
    false
  else if kw_config.«include» ≠ [] then
    kw_config.«include».any (fun inc => pyContains (pyLower inc) text)
  else
    true

/-- The per-record keep condition of `_filter_by_date_range`, given the
two already-parsed bounds. -/
def dateKeep (start_date end_date : Option DateTime) (event : EventRecord) :
    Bool :=
  match event.start with
  | none => false
  | some d =>
    !(match start_date with
      | some lo => d.blt lo
      | none => false) &&
    !(match end_date with
      | some hi => hi.blt d
      | none => false)

/-- The location stage as an end-to-end list transformer: the filter when
its section is enabled, the identity otherwise. -/
def locationStage (config : FilterConfig) (events : List EventRecord) :
    List EventRecord :=
  if (sectionD config.locations).enabled then
    filter_by_location (sectionD config.locations) events
  else events

/-- The keyword stage as an end-to-end list transformer. -/
def keywordStage (config : FilterConfig) (events : List EventRecord) :
    List EventRecord :=
  if (sectionD config.keywords).enabled then
    filter_by_keywords (sectionD config.keywords) events
  else events

/-- The date-range stage as an end-to-end list transformer. -/
def dateRangeStage (pd : String → Option DateTime) (config : FilterConfig)
    (events : List EventRecord) : List EventRecord :=
  if (drSectionD config.date_range).enabled then
    filter_by_date_range pd (drSectionD config.date_range) events
  else events

/-- `EventFilter._normalize_location`: strip; if a comma occurs, split on
commas, strip each part and take the last part (`parts[-1]`; `split` never
returns an empty list, so the `else location` fallback is dead);
otherwise return the stripped string. -/
def normalize_location (location : String) : String :=
  let location := pyStrip location
  if pyContains "," location then
    let parts := (pySplitChar ',' location).map pyStrip
    parts.getLastD location
  else
    location

/-- One step of a Python dict insert-or-append
(`groups[key].append(event)` with `groups[key] = []` on a new key):
insertion order of keys is preserved, events append at the end of their
bucket. -/
def insertGroup : List (String × List EventRecord) → String → EventRecord →
    List (String × List EventRecord)
  | [], key, e => [(key, [e])]
  | (k, es) :: rest, key, e =>
    if k = key then (k, es ++ [e]) :: rest
    else (k, es) :: insertGroup rest key e

/-- `EventFilter.get_location_groups`: bucket each event under
`_normalize_location(event.get('location', 'Unknown'))`; every record the
sources build carries the `location` key, so the `'Unknown'` dict default
never fires and the argument is the record's `location` string. -/
def get_location_groups (events : List EventRecord) :
    List (String × List EventRecord) :=
  events.foldl
    (fun groups event => insertGroup groups (normalize_location event.location) event)
    []

end EventFilter

namespace CalendarGenerator

/-- One emitted VEVENT block. The `uid` (a process-randomized Python
`hash` of `title + str(start)`) and `dtstamp` (`datetime.now()`) fields
are time/process dependent and not modelled. -/
structure VEvent where
  summary : String
  dtstart : DateTime
  dtend : Option DateTime
  location : Option String
  description : Option String
  url : Option String
deriving DecidableEq, Repr

/-- The calendar document `generate` builds before serialization. -/
structure ICalendar where
  prodid : String
  version : String
  calname : String
  timezone : String
  events : List VEvent
deriving DecidableEq, Repr

/-- The VEVENT built inside `generate`'s loop for a record whose `start`
is present (value `d`): `summary` is `event_data.get('title', 'Untitled
Event')`, which is the record's `title` since every record built by a
Source carries the `title` key; `dtend`/`location`/`description`/`url`
are added only when truthy (non-`None`, non-empty). -/
def mkVEvent (event_data : EventRecord) (d : DateTime) : VEvent :=
  { summary := event_data.title
    dtstart := d
    dtend := event_data.endTime
    location := if event_data.location = "" then none else some event_data.location
    description :=
      if event_data.description = "" then none else some event_data.description
    url := if event_data.url = "" then none else some event_data.url }

/-- The loop of `CalendarGenerator.generate`: skip records whose `start`
is falsy (`None`), emit one VEVENT for each remaining record in order. -/
def eventComponents : List EventRecord → List VEvent
  | [] => []
  | event_data :: rest =>
    match event_data.start with
    | none => eventComponents rest
    | some d => mkVEvent event_data d :: eventComponents rest

/-- `CalendarGenerator.generate`: fixed header properties, display name
`calendar_name or self.calendar_name` (Python `or`: an empty or absent
argument falls back to the constructor's name), and the event blocks. -/
def generate (self_calendar_name : String) (events : List EventRecord)
    (calendar_name : Option String) : ICalendar :=
  { prodid := "-//Event Aggregator//EN"
    version := "2.0"
    calname :=
      match calendar_name with
      | some s => if s = "" then self_calendar_name else s
      | none => self_calendar_name
    timezone := "UTC"
    events := eventComponents events }

end CalendarGenerator

namespace EventAggregator

/-- `%02d` (zero-pad to two digits), as used by `strftime('%Y-%m')`. -/
def pad2 (n : Nat) : String :=
  if n < 10 then "0" ++ toString n else toString n

/-- `%04d` zero-padding for the year part of `strftime('%Y-%m')`. -/
def pad4 (n : Nat) : String :=
  if n < 10 then "000" ++ toString n
  else if n < 100 then "00" ++ toString n
  else if n < 1000 then "0" ++ toString n
  else toString n

/-- `event['start'].strftime('%Y-%m')`. -/
def monthKey (d : DateTime) : String :=
  pad4 d.year ++ "-" ++ pad2 d.month

/-- `EventAggregator._group_by_month`: bucket each event that has a
`start` under its `YYYY-MM` key; events lacking `start` are put in no
bucket. -/
def group_by_month (events : List EventRecord) :
    List (String × List EventRecord) :=
  events.foldl
    (fun groups event =>
      match event.start with
      | none => groups
      | some d => EventFilter.insertGroup groups (monthKey d) event)
    []

end EventAggregator

namespace GenericHTMLSource

/-- One container element of the HTML source, reduced to what the
sub-selector extractions see: `title`, `dateText`, `location`,
`description` are the `_extract_text` results for their selectors (the
empty string when the selector is absent or unmatched); `urlSelectorPresent`
is the truthiness of the `url` selector and `href` the matched anchor's
`href` attribute (`none` when no element matches or the attribute is
missing). -/
structure HtmlElem where
  title : String
  dateText : String
  location : String
  description : String
  urlSelectorPresent : Bool
  href : Option String
deriving DecidableEq, Repr

/-- `GenericHTMLSource._extract_date` on the already-extracted text:
empty text gives `None`; otherwise the fuzzy parse, whose raised
exception is caught to `None`. -/
def extract_date (pd : String → Option DateTime) (text : String) :
    Option DateTime :=
  if text = "" then none else pd text

/-- `urllib.parse.urljoin(base, href)` restricted to the one case the
code reaches it with — `href` starting with `'/'` — for an absolute
`scheme://netloc/...` base: a `"//host/path"` href keeps only the base's
scheme, a `"/path"` href keeps scheme and network location. -/
def urljoinRooted (base href : String) : String :=
  match pySplitSeq "://" base with
  | [scheme, rest] =>
    if pyStartsWith "//" href then scheme ++ ":" ++ href
    else scheme ++ "://" ++ (pySplitChar '/' rest).headD rest ++ href
  | _ => href

/-- A URL in absolute form: it carries a scheme separator. -/
def isAbsoluteUrl (s : String) : Bool :=
  pyContains "://" s

/-- `GenericHTMLSource._extract_url`: no selector, no matched element or
a falsy `href` attribute gives `""`; an href starting with `'/'` is
joined onto the base URL; any other href is returned verbatim. -/
def extract_url (base : String) (selectorPresent : Bool)
    (href : Option String) : String :=
  if !selectorPresent then ""
  else
    match href with
    | some h =>
      if h ≠ "" then
        if pyStartsWith "/" h then urljoinRooted base h else h
      else ""
    | none => ""

/-- The record dict built for one container element (no `end` key, so
`event_data.get('end')` later reads `None`). -/
def elemRecord (pd : String → Option DateTime) (base : String)
    (elem : HtmlElem) : EventRecord :=
  { title := elem.title
    start := extract_date pd elem.dateText
    endTime := none
    location := elem.location
    description := elem.description
    url := extract_url base elem.urlSelectorPresent elem.href }

/-- `GenericHTMLSource.fetch_events`. The whole-fetch `try` region
(network GET, `raise_for_status`, HTML parse, container selection) is the
outer `Except`: its handler returns the events gathered so far, which is
always `[]`. Each loop iteration's `try` is the inner `Except`: an
exception while building one element's dict hits `continue`. A built
record is appended only when `title` and `start` are both truthy. -/
def fetch_events (pd : String → Option DateTime) (base : String)
    (page : Except String (List (Except String HtmlElem))) :
    List EventRecord :=
  match page with
  | .error _ => []
  | .ok elems =>
    elems.foldl
      (fun events elemR =>
        match elemR with
        | .error _ => events
        | .ok elem =>
          let event := elemRecord pd base elem
          if event.title ≠ "" ∧ event.start.isSome then events ++ [event]
          else events)
      []

end GenericHTMLSource

namespace SchemaOrgSource

/-- The `address` value inside a schema.org `location` object: either a
nested address object (with optional `streetAddress` /
`addressLocality`) or a plain string. -/
inductive SchemaAddress where
  | obj (streetAddress : Option String) (addressLocality : Option String)
  | str (s : String)
deriving DecidableEq, Repr

/-- The `location` value of a schema.org Event: a dict (optional `name`,
optional `address`), a plain string, or an absent/`null` value. -/
inductive SchemaLoc where
  | dict (name : Option String) (address : Option SchemaAddress)
  | str (s : String)
  | null
deriving DecidableEq, Repr

/-- One JSON item already identified as `@type == 'Event'`; fields are
the dict entries `_parse_event` reads (`none` = key absent). An Event
item without a `location` key reads `data.get('location', {})`, the
empty dict, i.e. `SchemaLoc.dict none none`. -/
structure SchemaEvent where
  name : Option String
  startDate : Option String
  endDate : Option String
  description : Option String
  url : Option String
  location : SchemaLoc
deriving DecidableEq, Repr

/-- `', '.join(p for p in parts if p)` for the two address parts. -/
def joinParts (street locality : String) : String :=
  if street = "" then locality
  else if locality = "" then street
  else street ++ ", " ++ locality

/-- `SchemaOrgSource._extract_location`: a dict with a truthy `name`
yields that name; else a dict whose `address` is itself a dict yields the
joined non-empty street/locality parts; else a dict yields
`str(loc.get('address', ''))`; a truthy non-dict yields `str(loc)`; a
falsy non-dict yields `''`. -/
def extract_location : SchemaLoc → String
  | .dict name address =>
    match name with
    | some n =>
      if n ≠ "" then n
      else
        match address with
        | some (.obj st loc) => joinParts (st.getD "") (loc.getD "")
        | some (.str s) => s
        | none => ""
    | none =>
      match address with
      | some (.obj st loc) => joinParts (st.getD "") (loc.getD "")
      | some (.str s) => s
      | none => ""
  | .str s => if s = "" then "" else s
  | .null => ""

/-- `SchemaOrgSource._parse_event`: best-effort date parses (a falsy
`startDate`/`endDate` string is not parsed; a parser exception is caught,
leaving the field `None`), `name` → title with `''` default, `location`
via `_extract_location`, `description`/`url` verbatim with `''`
defaults. -/
def parse_event (pd : String → Option DateTime) (data : SchemaEvent) :
    EventRecord :=
  { title := data.name.getD ""
    start :=
      match data.startDate with
      | some s => if s = "" then none else pd s
      | none => none
    endTime :=
      match data.endDate with
      | some s => if s = "" then none else pd s
      | none => none
    location := extract_location data.location
    description := data.description.getD ""
    url := data.url.getD "" }

/-- `SchemaOrgSource.fetch_events`. The whole-fetch `try` is the outer
`Except` (handler: return the empty list gathered so far). Each
`ld+json` script block's `try` is an inner `Except`: `.error` models a
`json.loads` failure, hit by `continue`; `.ok items` is the list of
`@type == 'Event'` items selected from the decoded JSON, each of which is
parsed and appended with no further check. -/
def fetch_events (pd : String → Option DateTime)
    (page : Except String (List (Except String (List SchemaEvent)))) :
    List EventRecord :=
  match page with
  | .error _ => []
  | .ok scripts =>
    scripts.foldl
      (fun events script =>
        match script with
        | .error _ => events
        | .ok items => events ++ items.map (parse_event pd))
      []

end SchemaOrgSource

/-!
Concrete sample data used to instantiate the theorems below on closed
inputs.
-/

/-- 2024-03-15 10:00:00. -/
def sampleDT : DateTime := ⟨2024, 3, 15, 10, 0, 0⟩

/-- 2024-04-20 18:30:00. -/
def sampleDT2 : DateTime := ⟨2024, 4, 20, 18, 30, 0⟩

/-- A concrete date-parse capability recognising two date strings. -/
def samplePd : String → Option DateTime := fun s =>
  if s = "2024-03-15" then some sampleDT
  else if s = "2024-04-20" then some sampleDT2
  else none

/-- The `filters` configuration with every section absent (all stages
disabled). -/
def noFilters : FilterConfig :=
  { locations := none, keywords := none, date_range := none }

/-- A schema.org Event item carrying no `name` key but a parseable
`startDate`. -/
def untitledSchemaItem : SchemaOrgSource.SchemaEvent :=
  { name := none, startDate := some "2024-03-15", endDate := none,
    description := none, url := none, location := .str "Springfield" }

/-- A successfully fetched page with one `ld+json` block holding the one
untitled Event item. -/
def sampleSchemaPage :
    Except String (List (Except String (List SchemaOrgSource.SchemaEvent))) :=
  .ok [.ok [untitledSchemaItem]]

/-- A well-formed HTML container element: title and date both extract. -/
def sampleHtmlElem : GenericHTMLSource.HtmlElem :=
  { title := "Jazz Night", dateText := "2024-03-15", location := "Springfield",
    description := "Live jazz", urlSelectorPresent := true,
    href := some "/events/jazz" }

/-- A successfully fetched HTML page with the one well-formed element. -/
def sampleHtmlPage :
    Except String (List (Except String GenericHTMLSource.HtmlElem)) :=
  .ok [.ok sampleHtmlElem]

/-- The record `GenericHTMLSource.fetch_events` builds from
`sampleHtmlElem` with base URL `http://example.com/`. -/
def sampleHtmlRecord : EventRecord :=
  { title := "Jazz Night", start := some sampleDT, endTime := none,
    location := "Springfield", description := "Live jazz",
    url := "http://example.com/events/jazz" }

/-- A record whose `start` is absent (a schema.org record whose date
parse failed). -/
def unscheduledRecord : EventRecord :=
  { title := "Jazz Night", start := none, endTime := none,
    location := "Springfield", description := "Live jazz", url := "" }

/-- A record with a present `start` and an empty title. -/
def scheduledUntitled : EventRecord :=
  { title := "", start := some sampleDT, endTime := none,
    location := "", description := "", url := "" }

/-- A scheduled record with an empty `location` string. -/
def emptyLocRecord : EventRecord :=
  { title := "Picnic", start := some sampleDT, endTime := none,
    location := "", description := "", url := "" }

/-- A keyword section whose include and exclude terms both match
`matchesBothRecord`. -/
def bothTermsKeywords : TermSection :=
  { enabled := true, «include» := ["jazz"], exclude := ["workshop"] }

/-- A location section whose include and exclude terms both match
`matchesBothRecord`'s location. -/
def bothTermsLocations : TermSection :=
  { enabled := true, «include» := ["springfield"], exclude := ["main st"] }

/-- A record matched by both the include and the exclude terms of
`bothTermsKeywords` and of `bothTermsLocations`. -/
def matchesBothRecord : EventRecord :=
  { title := "Jazz Workshop", start := some sampleDT, endTime := none,
    location := "123 Main St, Springfield", description := "Jazz basics",
    url := "" }

/-- An enabled date-range section with a parseable lower bound and an
unparsable upper bound. -/
def sampleDateRange : DateRangeSection :=
  { enabled := true, start_date := some "2024-03-15",
    end_date := some "whenever" }

/-!
Helper lemmas.
-/

theorem lexLt_self (l : List Nat) : lexLt l l = false := by
  induction l with
  | nil => rfl
  | cons a as ih => simp [lexLt, ih]

theorem DateTime.blt_self (d : DateTime) : d.blt d = false :=
  lexLt_self _

namespace EventFilter

theorem filter_by_location_eq (cfg : TermSection) (l : List EventRecord) :
    filter_by_location cfg l = l.filter (locationKeep cfg) := rfl

theorem filter_by_keywords_eq (cfg : TermSection) (l : List EventRecord) :
    filter_by_keywords cfg l = l.filter (keywordKeep cfg) := rfl

theorem filter_by_date_range_eq (pd : String → Option DateTime)
    (sec : DateRangeSection) (l : List EventRecord) :
    filter_by_date_range pd sec l =
      l.filter (dateKeep (dateBound pd sec.start_date) (dateBound pd sec.end_date)) :=
  rfl

theorem filter_events_stages (pd : String → Option DateTime)
    (cfg : FilterConfig) (l : List EventRecord) :
    filter_events pd cfg l = dateRangeStage pd cfg (keywordStage cfg (locationStage cfg l)) :=
  rfl

theorem locationStage_sublist (cfg : FilterConfig) (l : List EventRecord) :
    List.Sublist (locationStage cfg l) l := by
  unfold locationStage
  split
  · exact List.filter_sublist l
  · exact List.Sublist.refl l

theorem keywordStage_sublist (cfg : FilterConfig) (l : List EventRecord) :
    List.Sublist (keywordStage cfg l) l := by
  unfold keywordStage
  split
  · exact List.filter_sublist l
  · exact List.Sublist.refl l

theorem dateRangeStage_sublist (pd : String → Option DateTime)
    (cfg : FilterConfig) (l : List EventRecord) :
    List.Sublist (dateRangeStage pd cfg l) l := by
  unfold dateRangeStage
  split
  · exact List.filter_sublist l
  · exact List.Sublist.refl l

theorem insertGroup_cons (k' : String) (es : List EventRecord)
    (rest : List (String × List EventRecord)) (k : String) (e : EventRecord) :
    insertGroup ((k', es) :: rest) k e =
      if k' = k then (k', es ++ [e]) :: rest
      else (k', es) :: insertGroup rest k e := rfl

theorem insertGroup_self_mem (gs : List (String × List EventRecord))
    (k : String) (e : EventRecord) :
    ∃ g ∈ insertGroup gs k e, e ∈ g.2 := by
  induction gs with
  | nil => exact ⟨(k, [e]), by simp [insertGroup]⟩
  | cons p rest ih =>
    obtain ⟨k', es⟩ := p
    rw [insertGroup_cons]
    by_cases h : k' = k
    · rw [if_pos h]
      exact ⟨(k', es ++ [e]), List.mem_cons_self _ _, by simp⟩
    · rw [if_neg h]
      obtain ⟨g, hg, hge⟩ := ih
      exact ⟨g, List.mem_cons_of_mem _ hg, hge⟩

theorem insertGroup_mem_mono (gs : List (String × List EventRecord))
    (k : String) (e x : EventRecord)
    (h : ∃ g ∈ gs, x ∈ g.2) :
    ∃ g ∈ insertGroup gs k e, x ∈ g.2 := by
  induction gs with
  | nil => simp at h
  | cons p rest ih =>
    obtain ⟨k', es⟩ := p
    obtain ⟨g, hg, hgx⟩ := h
    rw [insertGroup_cons]
    by_cases hk : k' = k
    · rw [if_pos hk]
      rcases List.mem_cons.mp hg with hgp | hgr
      · refine ⟨(k', es ++ [e]), List.mem_cons_self _ _, ?_⟩
        have : x ∈ es := by rw [hgp] at hgx; exact hgx
        simp [this]
      · exact ⟨g, List.mem_cons_of_mem _ hgr, hgx⟩
    · rw [if_neg hk]
      rcases List.mem_cons.mp hg with hgp | hgr
      · exact ⟨g, by rw [hgp]; exact List.mem_cons_self _ _, hgx⟩
      · obtain ⟨g', hg', hg'x⟩ := ih ⟨g, hgr, hgx⟩
        exact ⟨g', List.mem_cons_of_mem _ hg', hg'x⟩

theorem insertGroup_mem_inv (gs : List (String × List EventRecord))
    (k : String) (e : EventRecord) (g : String × List EventRecord)
    (hg : g ∈ insertGroup gs k e) (x : EventRecord) (hx : x ∈ g.2) :
    x = e ∨ ∃ g' ∈ gs, x ∈ g'.2 := by
  induction gs with
  | nil =>
    simp [insertGroup] at hg
    rw [hg] at hx
    simp at hx
    exact Or.inl hx
  | cons p rest ih =>
    obtain ⟨k', es⟩ := p
    rw [insertGroup_cons] at hg
    by_cases hk : k' = k
    · rw [if_pos hk] at hg
      rcases List.mem_cons.mp hg with hgp | hgr
      · rw [hgp] at hx
        simp at hx
        rcases hx with hx | hx
        · exact Or.inr ⟨(k', es), List.mem_cons_self _ _, hx⟩
        · exact Or.inl hx
      · exact Or.inr ⟨g, List.mem_cons_of_mem _ hgr, hx⟩
    · rw [if_neg hk] at hg
      rcases List.mem_cons.mp hg with hgp | hgr
      · rw [hgp] at hx
        exact Or.inr ⟨(k', es), List.mem_cons_self _ _, hx⟩
      · rcases ih hgr with h | ⟨g', hg', hx'⟩
        · exact Or.inl h
        · exact Or.inr ⟨g', List.mem_cons_of_mem _ hg', hx'⟩

theorem insertGroup_keys (gs : List (String × List EventRecord))
    (k : String) (e : EventRecord) (g : String × List EventRecord)
    (hg : g ∈ insertGroup gs k e) :
    g.1 = k ∨ ∃ g' ∈ gs, g.1 = g'.1 := by
  induction gs with
  | nil =>
    simp [insertGroup] at hg
    rw [hg]
    exact Or.inl rfl
  | cons p rest ih =>
    obtain ⟨k', es⟩ := p
    rw [insertGroup_cons] at hg
    by_cases hk : k' = k
    · rw [if_pos hk] at hg
      rcases List.mem_cons.mp hg with hgp | hgr
      · rw [hgp]
        exact Or.inl hk
      · exact Or.inr ⟨g, List.mem_cons_of_mem _ hgr, rfl⟩
    · rw [if_neg hk] at hg
      rcases List.mem_cons.mp hg with hgp | hgr
      · rw [hgp]
        exact Or.inr ⟨(k', es), List.mem_cons_self _ _, rfl⟩
      · rcases ih hgr with h | ⟨g', hg', hk'⟩
        · exact Or.inl h
        · exact Or.inr ⟨g', List.mem_cons_of_mem _ hg', hk'⟩

theorem locGroups_aux (events : List EventRecord)
    (acc : List (String × List EventRecord)) (x : EventRecord)
    (h : (∃ g ∈ acc, x ∈ g.2) ∨ x ∈ events) :
    ∃ g ∈ events.foldl
        (fun gs e => insertGroup gs (normalize_location e.location) e) acc,
      x ∈ g.2 := by
  induction events generalizing acc with
  | nil =>
    rcases h with h | h
    · exact h
    · simp at h
  | cons e rest ih =>
    simp only [List.foldl_cons]
    apply ih
    rcases h with h | h
    · exact Or.inl (insertGroup_mem_mono _ _ _ _ h)
    · rcases List.mem_cons.mp h with rfl | hr
      · exact Or.inl (insertGroup_self_mem _ _ _)
      · exact Or.inr hr

theorem get_location_groups_mem (events : List EventRecord) (x : EventRecord)
    (h : x ∈ events) :
    ∃ g ∈ get_location_groups events, x ∈ g.2 :=
  locGroups_aux events [] x (Or.inr h)

theorem locGroups_keys_aux (events : List EventRecord)
    (acc : List (String × List EventRecord)) (g : String × List EventRecord)
    (hg : g ∈ events.foldl
        (fun gs e => insertGroup gs (normalize_location e.location) e) acc) :
    (∃ g0 ∈ acc, g.1 = g0.1) ∨
      ∃ r ∈ events, g.1 = normalize_location r.location := by
  induction events generalizing acc with
  | nil => exact Or.inl ⟨g, hg, rfl⟩
  | cons e rest ih =>
    simp only [List.foldl_cons] at hg
    rcases ih _ hg with ⟨g0, hg0, hkey⟩ | ⟨r, hr, hkey⟩
    · rcases insertGroup_keys _ _ _ _ hg0 with h0 | ⟨g1, hg1, h1⟩
      · exact Or.inr ⟨e, List.mem_cons_self _ _, hkey.trans h0⟩
      · exact Or.inl ⟨g1, hg1, hkey.trans h1⟩
    · exact Or.inr ⟨r, List.mem_cons_of_mem _ hr, hkey⟩

theorem get_location_groups_keys (events : List EventRecord)
    (g : String × List EventRecord) (hg : g ∈ get_location_groups events) :
    ∃ r ∈ events, g.1 = normalize_location r.location := by
  rcases locGroups_keys_aux events [] g hg with ⟨g0, hg0, _⟩ | h
  · simp at hg0
  · exact h

theorem locGroups_src_aux (events : List EventRecord)
    (acc : List (String × List EventRecord)) (g : String × List EventRecord)
    (hg : g ∈ events.foldl
        (fun gs e => insertGroup gs (normalize_location e.location) e) acc)
    (x : EventRecord) (hx : x ∈ g.2) :
    (∃ g0 ∈ acc, x ∈ g0.2) ∨ x ∈ events := by
  induction events generalizing acc with
  | nil => exact Or.inl ⟨g, hg, hx⟩
  | cons e rest ih =>
    simp only [List.foldl_cons] at hg
    rcases ih _ hg with ⟨g0, hg0, hx0⟩ | h
    · rcases insertGroup_mem_inv _ _ _ _ hg0 _ hx0 with rfl | ⟨g1, hg1, hx1⟩
      · exact Or.inr (List.mem_cons_self _ _)
      · exact Or.inl ⟨g1, hg1, hx1⟩
    · exact Or.inr (List.mem_cons_of_mem _ h)

theorem get_location_groups_src (events : List EventRecord)
    (g : String × List EventRecord) (hg : g ∈ get_location_groups events)
    (x : EventRecord) (hx : x ∈ g.2) : x ∈ events := by
  rcases locGroups_src_aux events [] g hg x hx with ⟨g0, hg0, _⟩ | h
  · simp at hg0
  · exact h

end EventFilter

namespace EventAggregator

theorem monthGroups_src_aux (events : List EventRecord)
    (acc : List (String × List EventRecord)) (g : String × List EventRecord)
    (hg : g ∈ events.foldl
        (fun gs e =>
          match e.start with
          | none => gs
          | some d => EventFilter.insertGroup gs (monthKey d) e) acc)
    (x : EventRecord) (hx : x ∈ g.2) :
    (∃ g0 ∈ acc, x ∈ g0.2) ∨ x ∈ events := by
  induction events generalizing acc with
  | nil => exact Or.inl ⟨g, hg, hx⟩
  | cons e rest ih =>
    simp only [List.foldl_cons] at hg
    match he : e.start with
    | none =>
      rw [he] at hg
      rcases ih _ hg with h | h
      · exact Or.inl h
      · exact Or.inr (List.mem_cons_of_mem _ h)
    | some d =>
      rw [he] at hg
      rcases ih _ hg with ⟨g0, hg0, hx0⟩ | h
      · rcases EventFilter.insertGroup_mem_inv _ _ _ _ hg0 _ hx0 with rfl |
          ⟨g1, hg1, hx1⟩
        · exact Or.inr (List.mem_cons_self _ _)
        · exact Or.inl ⟨g1, hg1, hx1⟩
      · exact Or.inr (List.mem_cons_of_mem _ h)

theorem group_by_month_src (events : List EventRecord)
    (g : String × List EventRecord) (hg : g ∈ group_by_month events)
    (x : EventRecord) (hx : x ∈ g.2) : x ∈ events := by
  rcases monthGroups_src_aux events [] g hg x hx with ⟨g0, hg0, _⟩ | h
  · simp at hg0
  · exact h

theorem monthGroups_scheduled_aux (events : List EventRecord)
    (acc : List (String × List EventRecord))
    (hacc : ∀ g ∈ acc, ∀ x ∈ g.2, x.start.isSome) :
    ∀ g ∈ events.foldl
        (fun gs e =>
          match e.start with
          | none => gs
          | some d => EventFilter.insertGroup gs (monthKey d) e) acc,
      ∀ x ∈ g.2, x.start.isSome := by
  induction events generalizing acc with
  | nil => exact hacc
  | cons e rest ih =>
    simp only [List.foldl_cons]
    match he : e.start with
    | none => exact ih _ hacc
    | some d =>
      apply ih
      intro g hg x hx
      rcases EventFilter.insertGroup_mem_inv _ _ _ _ hg _ hx with rfl |
        ⟨g1, hg1, hx1⟩
      · rw [he]; rfl
      · exact hacc g1 hg1 x hx1

theorem group_by_month_scheduled (events : List EventRecord) :
    ∀ g ∈ group_by_month events, ∀ x ∈ g.2, x.start.isSome :=
  monthGroups_scheduled_aux events [] (by simp)

end EventAggregator

namespace CalendarGenerator

theorem eventComponents_append (l1 l2 : List EventRecord) :
    eventComponents (l1 ++ l2) = eventComponents l1 ++ eventComponents l2 := by
  induction l1 with
  | nil => rfl
  | cons e rest ih =>
    match he : e.start with
    | none => simp [List.cons_append, eventComponents, he, ih]
    | some d => simp [List.cons_append, eventComponents, he, ih]

theorem eventComponents_mem (l : List EventRecord) (b : VEvent)
    (h : b ∈ eventComponents l) :
    ∃ e ∈ l, ∃ d, e.start = some d ∧ b = mkVEvent e d := by
  induction l with
  | nil => simp [eventComponents] at h
  | cons e rest ih =>
    match he : e.start with
    | none =>
      rw [eventComponents, he] at h
      obtain ⟨e', he', hd⟩ := ih h
      exact ⟨e', List.mem_cons_of_mem _ he', hd⟩
    | some d =>
      rw [eventComponents, he] at h
      rcases List.mem_cons.mp h with rfl | h'
      · exact ⟨e, List.mem_cons_self _ _, d, he, rfl⟩
      · obtain ⟨e', he', hd⟩ := ih h'
        exact ⟨e', List.mem_cons_of_mem _ he', hd⟩

theorem eventComponents_filter (l : List EventRecord) :
    eventComponents (l.filter fun e => e.start.isSome) = eventComponents l := by
  induction l with
  | nil => rfl
  | cons e rest ih =>
    match he : e.start with
    | none => simp [List.filter_cons, he, eventComponents, ih]
    | some d => simp [List.filter_cons, he, eventComponents, ih]

end CalendarGenerator

namespace GenericHTMLSource

theorem fetch_aux (pd : String → Option DateTime) (base : String)
    (elems : List (Except String HtmlElem)) (acc : List EventRecord)
    (hacc : ∀ r ∈ acc, r.title ≠ "" ∧ r.start.isSome) :
    ∀ r ∈ elems.foldl
        (fun events elemR =>
          match elemR with
          | .error _ => events
          | .ok elem =>
            let event := elemRecord pd base elem
            if event.title ≠ "" ∧ event.start.isSome then events ++ [event]
            else events) acc,
      r.title ≠ "" ∧ r.start.isSome := by
  induction elems generalizing acc with
  | nil => exact hacc
  | cons elemR rest ih =>
    simp only [List.foldl_cons]
    match elemR with
    | .error _ => exact ih _ hacc
    | .ok elem =>
      dsimp only
      split
      · apply ih
        intro r hr
        rcases List.mem_append.mp hr with h | h
        · exact hacc r h
        · simp at h
          rw [h]
          assumption
      · exact ih _ hacc

theorem fetch_events_shape (pd : String → Option DateTime) (base : String)
    (page : Except String (List (Except String HtmlElem)))
    (r : EventRecord) (h : r ∈ fetch_events pd base page) :
    r.title ≠ "" ∧ r.start.isSome := by
  match page with
  | .error _ => simp [fetch_events] at h
  | .ok elems => exact fetch_aux pd base elems [] (by simp) r h

end GenericHTMLSource

theorem filter_events_subseq (pd : String → Option DateTime)
    (cfg : FilterConfig) (events : List EventRecord) :
    List.Sublist (EventFilter.filter_events pd cfg events) events := by
  rw [EventFilter.filter_events_stages]
  exact ((EventFilter.dateRangeStage_sublist pd cfg _).trans
    (EventFilter.keywordStage_sublist cfg _)).trans
    (EventFilter.locationStage_sublist cfg events)

/-!
Claim theorems.
-/

/-- C10: for every input list and every configuration, `filter_events`
returns a subsequence of its input — only records that were in the input,
each at most as many times as it appeared, in the same relative order, and
(being the very same values) modified by no stage. -/
theorem filter_events_is_subsequence (pd : String → Option DateTime)
    (cfg : FilterConfig) (events : List EventRecord) :
    List.Sublist (EventFilter.filter_events pd cfg events) events :=
  filter_events_subseq pd cfg events

/-- C7: `filter_events` applies the enabled stages in the fixed order
location, then keyword, then date-range, each on the previous stage's
output; and with all three sections disabled it returns the input list
unchanged. -/
theorem filter_stage_order_and_identity (pd : String → Option DateTime)
    (cfg : FilterConfig) (events : List EventRecord) :
    EventFilter.filter_events pd cfg events =
      EventFilter.dateRangeStage pd cfg
        (EventFilter.keywordStage cfg (EventFilter.locationStage cfg events)) ∧
    ((sectionD cfg.locations).enabled = false →
      (sectionD cfg.keywords).enabled = false →
      (drSectionD cfg.date_range).enabled = false →
      EventFilter.filter_events pd cfg events = events) := by
  refine ⟨rfl, ?_⟩
  intro h1 h2 h3
  unfold EventFilter.filter_events
  simp [h1, h2, h3]

theorem filter_stage_order_and_identity_witness :
    EventFilter.filter_events samplePd noFilters [matchesBothRecord] =
      [matchesBothRecord] :=
  (filter_stage_order_and_identity samplePd noFilters [matchesBothRecord]).2
    rfl rfl rfl

/-- C8: within a single enabled filter stage, a record whose matched text
(location string, or title-space-description, lower-cased substring
matching) contains both an exclude term and an include term is dropped:
exclusion is evaluated first and wins. -/
theorem exclude_wins_over_include (lsec ksec : TermSection)
    (events : List EventRecord) (e : EventRecord)
    (hLex : ∃ t ∈ lsec.exclude,
      pyContains (pyLower t) (pyLower e.location) = true)
    (hLinc : ∃ t ∈ lsec.«include»,
      pyContains (pyLower t) (pyLower e.location) = true)
    (hKex : ∃ t ∈ ksec.exclude,
      pyContains (pyLower t) (pyLower (e.title ++ " " ++ e.description)) = true)
    (hKinc : ∃ t ∈ ksec.«include»,
      pyContains (pyLower t) (pyLower (e.title ++ " " ++ e.description)) = true) :
    e ∉ EventFilter.filter_by_location lsec events ∧
    e ∉ EventFilter.filter_by_keywords ksec events := by
  constructor
  · rw [EventFilter.filter_by_location_eq]
    intro hmem
    have hkeep := (List.mem_filter.mp hmem).2
    have hany : lsec.exclude.any
        (fun ex => pyContains (pyLower ex) (pyLower e.location)) = true := by
      obtain ⟨t, ht, hp⟩ := hLex
      exact List.any_eq_true.mpr ⟨t, ht, hp⟩
    simp only [EventFilter.locationKeep] at hkeep
    rw [if_pos hany] at hkeep
    simp at hkeep
  · rw [EventFilter.filter_by_keywords_eq]
    intro hmem
    have hkeep := (List.mem_filter.mp hmem).2
    have hany : ksec.exclude.any
        (fun ex =>
          pyContains (pyLower ex) (pyLower (e.title ++ " " ++ e.description))) =
        true := by
      obtain ⟨t, ht, hp⟩ := hKex
      exact List.any_eq_true.mpr ⟨t, ht, hp⟩
    simp only [EventFilter.keywordKeep] at hkeep
    rw [if_pos hany] at hkeep
    simp at hkeep

theorem exclude_wins_over_include_witness :
    matchesBothRecord ∉
        EventFilter.filter_by_location bothTermsLocations [matchesBothRecord] ∧
    matchesBothRecord ∉
        EventFilter.filter_by_keywords bothTermsKeywords [matchesBothRecord] :=
  exclude_wins_over_include bothTermsLocations bothTermsKeywords
    [matchesBothRecord] matchesBothRecord
    (by decide) (by decide) (by decide) (by decide)

theorem dateBound_unparsable (pd : String → Option DateTime) (s : String)
    (h : pd s = none) : EventFilter.dateBound pd (some s) = none := by
  by_cases hs : s = "" <;> simp [EventFilter.dateBound, hs, h]

/-- C5: the date-range stage drops every record lacking `start`; keeps a
record whose `start` equals the parsed lower or upper bound (provided the
other bound also passes — bounds are inclusive); drops records strictly
before the lower or strictly after the upper bound; and an unparsable
`start_date`/`end_date` configuration string imposes no bound on that
side. -/
theorem date_range_stage_spec (pd : String → Option DateTime)
    (sec : DateRangeSection) (events : List EventRecord) (e : EventRecord) :
    (e.start = none → e ∉ EventFilter.filter_by_date_range pd sec events) ∧
    (∀ d, e ∈ events → e.start = some d →
      EventFilter.dateBound pd sec.start_date = some d →
      (∀ hi, EventFilter.dateBound pd sec.end_date = some hi →
        hi.blt d = false) →
      e ∈ EventFilter.filter_by_date_range pd sec events) ∧
    (∀ d, e ∈ events → e.start = some d →
      EventFilter.dateBound pd sec.end_date = some d →
      (∀ lo, EventFilter.dateBound pd sec.start_date = some lo →
        d.blt lo = false) →
      e ∈ EventFilter.filter_by_date_range pd sec events) ∧
    (∀ d lo, e.start = some d →
      EventFilter.dateBound pd sec.start_date = some lo → d.blt lo = true →
      e ∉ EventFilter.filter_by_date_range pd sec events) ∧
    (∀ d hi, e.start = some d →
      EventFilter.dateBound pd sec.end_date = some hi → hi.blt d = true →
      e ∉ EventFilter.filter_by_date_range pd sec events) ∧
    (∀ s, sec.start_date = some s → pd s = none →
      EventFilter.filter_by_date_range pd sec events =
        EventFilter.filter_by_date_range pd { sec with start_date := none }
          events) ∧
    (∀ s, sec.end_date = some s → pd s = none →
      EventFilter.filter_by_date_range pd sec events =
        EventFilter.filter_by_date_range pd { sec with end_date := none }
          events) := by
  refine ⟨?_, ?_, ?_, ?_, ?_, ?_, ?_⟩
  · intro h hmem
    rw [EventFilter.filter_by_date_range_eq] at hmem
    have hkeep := (List.mem_filter.mp hmem).2
    simp [EventFilter.dateKeep, h] at hkeep
  · intro d hmem hstart hlo hhi
    rw [EventFilter.filter_by_date_range_eq]
    refine List.mem_filter.mpr ⟨hmem, ?_⟩
    simp only [EventFilter.dateKeep, hstart, hlo, DateTime.blt_self]
    cases hend : EventFilter.dateBound pd sec.end_date with
    | none => simp
    | some hi => simp [hhi hi hend]
  · intro d hmem hstart hhi hlo
    rw [EventFilter.filter_by_date_range_eq]
    refine List.mem_filter.mpr ⟨hmem, ?_⟩
    simp only [EventFilter.dateKeep, hstart, hhi, DateTime.blt_self]
    cases hbeg : EventFilter.dateBound pd sec.start_date with
    | none => simp
    | some lo => simp [hlo lo hbeg]
  · intro d lo hstart hlo hblt hmem
    rw [EventFilter.filter_by_date_range_eq] at hmem
    have hkeep := (List.mem_filter.mp hmem).2
    simp [EventFilter.dateKeep, hstart, hlo, hblt] at hkeep
  · intro d hi hstart hhi hblt hmem
    rw [EventFilter.filter_by_date_range_eq] at hmem
    have hkeep := (List.mem_filter.mp hmem).2
    simp [EventFilter.dateKeep, hstart, hhi, hblt] at hkeep
  · intro s hs hpd
    rw [EventFilter.filter_by_date_range_eq, EventFilter.filter_by_date_range_eq]
    simp only [hs]
    rw [dateBound_unparsable pd s hpd]
    rfl
  · intro s hs hpd
    rw [EventFilter.filter_by_date_range_eq, EventFilter.filter_by_date_range_eq]
    simp only [hs]
    rw [dateBound_unparsable pd s hpd]
    rfl

theorem date_range_stage_spec_witness :
    unscheduledRecord ∉
      EventFilter.filter_by_date_range samplePd sampleDateRange
        [unscheduledRecord] :=
  (date_range_stage_spec samplePd sampleDateRange [unscheduledRecord]
    unscheduledRecord).1 rfl

/-- C6: a record whose `start` is absent is excluded from calendar
encoding and from month grouping, but the location and keyword stages
judge it on its location/text alone (so it can pass them), and it is
still placed in a location-grouping bucket. -/
theorem unscheduled_record_handling (cfgL cfgK : TermSection)
    (events : List EventRecord) (e : EventRecord) (hs : e.start = none) :
    (CalendarGenerator.eventComponents events =
      CalendarGenerator.eventComponents
        (events.filter fun r => r.start.isSome)) ∧
    (∀ g ∈ EventAggregator.group_by_month events, e ∉ g.2) ∧
    (e ∈ events → EventFilter.locationKeep cfgL e = true →
      e ∈ EventFilter.filter_by_location cfgL events) ∧
    (e ∈ events → EventFilter.keywordKeep cfgK e = true →
      e ∈ EventFilter.filter_by_keywords cfgK events) ∧
    (e ∈ events → ∃ g ∈ EventFilter.get_location_groups events, e ∈ g.2) := by
  refine ⟨(CalendarGenerator.eventComponents_filter events).symm, ?_, ?_, ?_, ?_⟩
  · intro g hg hmem
    have := EventAggregator.group_by_month_scheduled events g hg e hmem
    rw [hs] at this
    simp at this
  · intro hmem hkeep
    rw [EventFilter.filter_by_location_eq]
    exact List.mem_filter.mpr ⟨hmem, hkeep⟩
  · intro hmem hkeep
    rw [EventFilter.filter_by_keywords_eq]
    exact List.mem_filter.mpr ⟨hmem, hkeep⟩
  · intro hmem
    exact EventFilter.get_location_groups_mem events e hmem

theorem unscheduled_record_handling_witness :
    unscheduledRecord ∈
        EventFilter.filter_by_location bothTermsLocations [unscheduledRecord] ∧
    unscheduledRecord ∈
        EventFilter.filter_by_keywords bothTermsKeywords [unscheduledRecord] ∧
    ∃ g ∈ EventFilter.get_location_groups [unscheduledRecord],
      unscheduledRecord ∈ g.2 := by
  have h := unscheduled_record_handling bothTermsLocations bothTermsKeywords
    [unscheduledRecord] unscheduledRecord rfl
  exact ⟨h.2.2.1 (by decide) (by decide), h.2.2.2.1 (by decide) (by decide),
    h.2.2.2.2 (by decide)⟩

/-- C9: neither Source variant propagates a failure to its caller: a
whole-source fetch/parse failure yields the empty record list, and a
failing element (HTML container) or block (`ld+json` script) is skipped
while every remaining element is still processed. (The embedding encodes
the caught exceptions as `Except.error` values; both `fetch_events`
functions are total on every outcome.) -/
theorem sources_contain_failures (pd : String → Option DateTime)
    (base err msg : String)
    (es1 es2 : List (Except String GenericHTMLSource.HtmlElem))
    (ss1 ss2 : List (Except String (List SchemaOrgSource.SchemaEvent))) :
    GenericHTMLSource.fetch_events pd base (.error err) = [] ∧
    SchemaOrgSource.fetch_events pd (.error err) = [] ∧
    GenericHTMLSource.fetch_events pd base (.ok (es1 ++ .error msg :: es2)) =
      GenericHTMLSource.fetch_events pd base (.ok (es1 ++ es2)) ∧
    SchemaOrgSource.fetch_events pd (.ok (ss1 ++ .error msg :: ss2)) =
      SchemaOrgSource.fetch_events pd (.ok (ss1 ++ ss2)) := by
  refine ⟨rfl, rfl, ?_, ?_⟩
  · simp only [GenericHTMLSource.fetch_events, List.foldl_append,
      List.foldl_cons]
  · simp only [SchemaOrgSource.fetch_events, List.foldl_append,
      List.foldl_cons]

/-- C1 counterexample: an Event item with no `name` key but a parseable
`startDate` leaves `SchemaOrgSource.fetch_events` as a record with an
empty title, and with all filters disabled that record appears as an
event entry of the encoded main calendar (its summary is `""`). -/
theorem schema_empty_title_reaches_calendar :
    ((SchemaOrgSource.fetch_events samplePd sampleSchemaPage).map
        (fun r => r.title) = [""]) ∧
    ((CalendarGenerator.generate "My Events"
        (EventFilter.filter_events samplePd noFilters
          (SchemaOrgSource.fetch_events samplePd sampleSchemaPage))
        none).events.map (fun b => b.summary) = [""]) := by
  decide

/-- C1 amended: the empty-title guarantee holds for the HTML-selector
source only — `GenericHTMLSource.fetch_events` drops every candidate with
an empty title, so every event entry of the main, per-location and
per-month calendars built from an HTML fetch has a non-empty summary.
`SchemaOrgSource` does not drop empty-title records and such records do
appear in encoded calendars (see the counterexample). -/
theorem html_empty_title_never_encoded (pd : String → Option DateTime)
    (base name : String) (cn : Option String) (cfg : FilterConfig)
    (page : Except String (List (Except String GenericHTMLSource.HtmlElem))) :
    (∀ r ∈ GenericHTMLSource.fetch_events pd base page, r.title ≠ "") ∧
    (∀ b ∈ (CalendarGenerator.generate name
        (EventFilter.filter_events pd cfg
          (GenericHTMLSource.fetch_events pd base page)) cn).events,
      b.summary ≠ "") ∧
    (∀ g ∈ EventFilter.get_location_groups
        (EventFilter.filter_events pd cfg
          (GenericHTMLSource.fetch_events pd base page)),
      ∀ b ∈ (CalendarGenerator.generate name g.2 cn).events,
        b.summary ≠ "") ∧
    (∀ g ∈ EventAggregator.group_by_month
        (EventFilter.filter_events pd cfg
          (GenericHTMLSource.fetch_events pd base page)),
      ∀ b ∈ (CalendarGenerator.generate name g.2 cn).events,
        b.summary ≠ "") := by
  have hfetch : ∀ r ∈ GenericHTMLSource.fetch_events pd base page,
      r.title ≠ "" :=
    fun r hr => (GenericHTMLSource.fetch_events_shape pd base page r hr).1
  have hfilter : ∀ r ∈ EventFilter.filter_events pd cfg
      (GenericHTMLSource.fetch_events pd base page), r.title ≠ "" :=
    fun r hr => hfetch r ((filter_events_subseq pd cfg _).subset hr)
  refine ⟨hfetch, ?_, ?_, ?_⟩
  · intro b hb
    obtain ⟨e, he, d, _, rfl⟩ := CalendarGenerator.eventComponents_mem _ b hb
    exact hfilter e he
  · intro g hg b hb
    obtain ⟨e, he, d, _, rfl⟩ := CalendarGenerator.eventComponents_mem _ b hb
    exact hfilter e (EventFilter.get_location_groups_src _ g hg e he)
  · intro g hg b hb
    obtain ⟨e, he, d, _, rfl⟩ := CalendarGenerator.eventComponents_mem _ b hb
    exact hfilter e (EventAggregator.group_by_month_src _ g hg e he)

theorem html_empty_title_never_encoded_witness :
    sampleHtmlRecord.title ≠ "" :=
  (html_empty_title_never_encoded samplePd "http://example.com/" "X" none
    noFilters sampleHtmlPage).1 sampleHtmlRecord (by decide)

/-- C2 counterexample: the grouping key takes the last comma segment even
when it is empty (`"123 Main St,"` gives `""`, not the last non-empty
segment `"123 Main St"`), and a record with an empty location string is
keyed under `""`, not under the sentinel `"Unknown"`. -/
theorem location_key_counterexample :
    (EventFilter.normalize_location "123 Main St," = "" ∧
      EventFilter.normalize_location "123 Main St," ≠ "123 Main St") ∧
    ((EventFilter.get_location_groups [emptyLocRecord]).map Prod.fst = [""] ∧
      (EventFilter.get_location_groups [emptyLocRecord]).map Prod.fst ≠
        ["Unknown"]) := by
  decide

/-- C2 amended: the grouping key is the trimmed location; if it contains
a comma, the trimmed text after the last comma (possibly empty), not the
last non-empty segment; every group key equals the normalized location of
one of its records, so an empty location yields the key `""` — the
`"Unknown"` sentinel would apply only to a record lacking the `location`
key, which the sources never produce. -/
theorem location_grouping_key_amended (events : List EventRecord)
    (g : String × List EventRecord)
    (hg : g ∈ EventFilter.get_location_groups events) :
    (∃ r ∈ events, g.1 = EventFilter.normalize_location r.location) ∧
    EventFilter.normalize_location "123 Main St, Springfield" =
      "Springfield" ∧
    EventFilter.normalize_location "Springfield" = "Springfield" ∧
    EventFilter.normalize_location "" = "" :=
  ⟨EventFilter.get_location_groups_keys events g hg, by decide, by decide,
    by decide⟩

theorem location_grouping_key_amended_witness :
    ∃ r ∈ [emptyLocRecord],
      ("" : String) = EventFilter.normalize_location r.location :=
  (location_grouping_key_amended [emptyLocRecord] ("", [emptyLocRecord])
    (by decide)).1

/-- C3 counterexample: for a record with a present `start` and an empty
title string, the encoder emits an event block whose summary is `""`, not
the literal `"Untitled Event"`. -/
theorem untitled_default_unused_counterexample :
    ((CalendarGenerator.generate "My Events" [scheduledUntitled] none).events.map
        (fun b => b.summary) = [""]) ∧
    ("" : String) ≠ "Untitled Event" := by
  decide

/-- C3 amended: for every record with a present `start` the encoder emits
exactly one event block for it, whose summary is the record's title
verbatim — `""` for an empty title. The `"Untitled Event"` default of
`event_data.get('title', 'Untitled Event')` fires only when the `title`
key is absent, which never happens for source-produced records. -/
theorem encoder_summary_is_title (name : String) (cn : Option String)
    (es1 es2 : List EventRecord) (r : EventRecord) (d : DateTime)
    (hd : r.start = some d) :
    (CalendarGenerator.generate name (es1 ++ r :: es2) cn).events =
      (CalendarGenerator.generate name es1 cn).events ++
        CalendarGenerator.mkVEvent r d ::
          (CalendarGenerator.generate name es2 cn).events ∧
    (CalendarGenerator.mkVEvent r d).summary = r.title := by
  refine ⟨?_, rfl⟩
  show CalendarGenerator.eventComponents (es1 ++ r :: es2) =
    CalendarGenerator.eventComponents es1 ++
      CalendarGenerator.mkVEvent r d :: CalendarGenerator.eventComponents es2
  rw [CalendarGenerator.eventComponents_append]
  congr 1
  simp only [CalendarGenerator.eventComponents, hd]

theorem encoder_summary_is_title_witness :
    (CalendarGenerator.generate "X" ([] ++ scheduledUntitled :: []) none).events =
      (CalendarGenerator.generate "X" [] none).events ++
        CalendarGenerator.mkVEvent scheduledUntitled sampleDT ::
          (CalendarGenerator.generate "X" [] none).events ∧
    (CalendarGenerator.mkVEvent scheduledUntitled sampleDT).summary =
      scheduledUntitled.title :=
  encoder_summary_is_title "X" none [] [] scheduledUntitled sampleDT rfl

/-- C4 counterexample: a relative href that does not begin with `'/'` is
returned verbatim by `_extract_url` — it is not resolved to absolute form
against the base URL (the result carries no scheme separator although the
base does). -/
theorem relative_href_not_resolved :
    GenericHTMLSource.extract_url "http://example.com/events/" true
        (some "party.html") = "party.html" ∧
    GenericHTMLSource.isAbsoluteUrl "party.html" = false ∧
    GenericHTMLSource.isAbsoluteUrl "http://example.com/events/" = true := by
  decide

/-- C4 amended: only hrefs beginning with `'/'` are resolved against the
source's base URL (keeping the base's scheme, and its network location
unless the href begins with `'//'`); every other non-empty href, relative
hrefs included, is returned verbatim. -/
theorem extract_url_rooted_only (base h' : String) (hne : h' ≠ "") :
    (pyStartsWith "/" h' = true →
      GenericHTMLSource.extract_url base true (some h') =
        GenericHTMLSource.urljoinRooted base h') ∧
    (pyStartsWith "/" h' = false →
      GenericHTMLSource.extract_url base true (some h') = h') := by
  constructor
  · intro hp
    simp [GenericHTMLSource.extract_url, hne, hp]
  · intro hp
    simp [GenericHTMLSource.extract_url, hne, hp]

theorem extract_url_rooted_only_witness :
    GenericHTMLSource.extract_url "http://example.com/events/" true
        (some "/party") =
      GenericHTMLSource.urljoinRooted "http://example.com/events/" "/party" :=
  (extract_url_rooted_only "http://example.com/events/" "/party"
    (by decide)).1 (by decide)

end EventScraper
